import Mathlib

/-!
Verification of the auto-annotation-api services against their specification.

Strings of the Go source are modelled as `List Char`. The relevant pure string
helpers of the Go standard library (strings.TrimSpace, strings.Split,
strings.Join, strings.ReplaceAll, strings.Contains, strings.HasPrefix,
strings.TrimPrefix) are embedded as executable Lean functions, and on top of
them the repository's own functions: `cleanExtractedText`
(services/pdf_parser.go), `parseAnnotationResponse` and
`GenerateAnnotationWithGenre` (services/ollama_client.go), and the
orchestration operations of services/annotation_service.go. The MongoDB
collection is modelled as a list of records keyed by their `_id`; external
effects (PDF library, Ollama HTTP call, AWS Polly/S3, bcrypt, JWT signing) are
oracle parameters, which keeps the repository's own control flow explicit.
-/

abbrev GoStr := List Char

/-- Characters for which Go's `unicode.IsSpace` returns true (the Unicode
White_Space property, as listed in the Go `unicode` package tables). -/
def goIsSpace (c : Char) : Bool :=
  c = ' ' || c = '\t' || c = '\n' || c.toNat = 0x0b || c.toNat = 0x0c ||
    c = '\r' || c.toNat = 0x85 || c.toNat = 0xa0 || c.toNat = 0x1680 ||
    (0x2000 ≤ c.toNat && c.toNat ≤ 0x200a) ||
    c.toNat = 0x2028 || c.toNat = 0x2029 || c.toNat = 0x202f ||
    c.toNat = 0x205f || c.toNat = 0x3000

/-- Go `strings.TrimSpace`: drop leading and trailing whitespace. -/
def trimSpace (s : GoStr) : GoStr :=
  ((s.dropWhile goIsSpace).reverse.dropWhile goIsSpace).reverse

/-- Go `strings.Split(s, "\n")`: always returns at least one piece. -/
def splitOnNL : GoStr → List GoStr
  | [] => [[]]
  | c :: rest =>
      if c = '\n' then [] :: splitOnNL rest
      else
        match splitOnNL rest with
        | [] => [[c]]
        | l :: ls => (c :: l) :: ls

/-- Go `strings.Join(ls, "\n")`. -/
def joinNL : List GoStr → GoStr
  | [] => []
  | [l] => l
  | l :: ls => l ++ '\n' :: joinNL ls

/-- Go `strings.ReplaceAll(s, "\r\n", "\n")`: left-to-right, non-overlapping. -/
def replaceCRLF : GoStr → GoStr
  | [] => []
  | [c] => [c]
  | c :: d :: rest =>
      if c = '\r' && d = '\n' then '\n' :: replaceCRLF rest
      else c :: replaceCRLF (d :: rest)

/-- Go `strings.ReplaceAll(s, "\r", "\n")`. -/
def replaceCR (s : GoStr) : GoStr :=
  s.map fun c => if c = '\r' then '\n' else c

/-- Go `strings.Contains(s, "  ")` (two spaces). -/
def containsDouble : GoStr → Bool
  | c :: d :: rest => (c = ' ' && d = ' ') || containsDouble (d :: rest)
  | _ => false

/-- Go `strings.ReplaceAll(s, "  ", " ")`: each match consumes both spaces and
emits one, continuing after the match (so "   " becomes "  "). -/
def replaceDouble : GoStr → GoStr
  | [] => []
  | [c] => [c]
  | c :: d :: rest =>
      if c = ' ' && d = ' ' then ' ' :: replaceDouble rest
      else c :: replaceDouble (d :: rest)

/-- One fuel-indexed unrolling of the source loop
`for strings.Contains(result, "  ") { result = ReplaceAll(result, "  ", " ") }`. -/
def squeezeFuel : Nat → GoStr → GoStr
  | 0, s => s
  | fuel + 1, s =>
      if containsDouble s then squeezeFuel fuel (replaceDouble s) else s

/-- The squeeze loop of `cleanExtractedText`. `s.length` fuel provably reaches
the fixed point (each iteration strictly shortens the string, and a string of
length below two contains no double space); `squeezeLoop_spec` below proves the
loop equation of the source. -/
def squeezeLoop (s : GoStr) : GoStr :=
  squeezeFuel s.length s

/-- services/pdf_parser.go `cleanExtractedText`: normalize CRLF/CR to LF, trim
every line and drop the blank ones, rejoin with LF, squeeze runs of double
spaces, and trim the result. -/
def cleanExtractedText (text : GoStr) : GoStr :=
  let text1 := replaceCR (replaceCRLF text)
  let lines := splitOnNL text1
  let cleanLines := (lines.map trimSpace).filter fun l => !l.isEmpty
  let result := joinNL cleanLines
  trimSpace (squeezeLoop result)

/-- Go `strings.HasPrefix`. -/
def goHasPfx (s p : GoStr) : Bool :=
  p.isPrefixOf s

/-- Go `strings.TrimPrefix`. -/
def goTrimPfx (s p : GoStr) : GoStr :=
  if p.isPrefixOf s then s.drop p.length else s

/-- services/ollama_client.go `AnnotationWithGenre`; `annotationBody` models
the Go field `Annotation`. -/
structure AnnotationWithGenre where
  annotationBody : GoStr
  genre : GoStr
deriving DecidableEq

/-- services/ollama_client.go `parseAnnotationResponse`: genre defaults to
"Other" and the body to the whole response; a first line that (trimmed) starts
with "GENRE:" supplies the genre, the remaining lines (joined and trimmed)
the body; an empty body falls back to the whole response. -/
def parseAnnotationResponse (response : GoStr) : AnnotationWithGenre :=
  let dflt : AnnotationWithGenre :=
    { annotationBody := response, genre := ("Other".toList) }
  let result :=
    match splitOnNL response with
    | [] => dflt
    | l0 :: rest =>
        if goHasPfx (trimSpace l0) ("GENRE:".toList) then
          let genreLine := trimSpace l0
          let g := trimSpace (goTrimPfx genreLine ("GENRE:".toList))
          let body := if rest.isEmpty then [] else trimSpace (joinNL rest)
          { annotationBody := body, genre := g }
        else dflt
  if result.annotationBody.isEmpty then
    { result with annotationBody := response }
  else result

deriving instance DecidableEq for Except

/-- models/annotation.go `Annotation`; the field `annotationBody` models the
Go field `Annotation`, timestamps are abstract `Nat` instants. -/
structure AnnotationRec where
  id : GoStr
  userID : GoStr
  title : GoStr
  image : GoStr
  sourceFile : GoStr
  sourceType : GoStr
  textContent : GoStr
  annotationBody : GoStr
  genre : GoStr
  ttsURL : GoStr
  status : GoStr
  errorMessage : GoStr
  createdAt : Nat
  updatedAt : Nat
deriving DecidableEq

/-- models/annotation.go `NewAnnotation`: fresh record in "processing" state;
the generated UUID and the current instant are passed in explicitly. -/
def NewAnnotationRec (newID : GoStr) (now : Nat)
    (userID title sourceFile sourceType : GoStr) : AnnotationRec :=
  { id := newID, userID := userID, title := title, image := [],
    sourceFile := sourceFile, sourceType := sourceType, textContent := [],
    annotationBody := [], genre := [], ttsURL := [],
    status := ("processing".toList), errorMessage := [],
    createdAt := now, updatedAt := now }

/-- The `annotations` MongoDB collection, modelled as a list of documents. -/
abbrev Store := List AnnotationRec

/-- `collection.FindOne(ctx, bson.M{"_id": id})`: first document matching. -/
def findByID : Store → GoStr → Option AnnotationRec
  | [], _ => none
  | r :: rest, id => if r.id = id then some r else findByID rest id

/-- `collection.UpdateOne(ctx, bson.M{"_id": id}, update)`: rewrite the first
matching document, returning the new store and the matched count. -/
def updateOneByID : Store → GoStr → (AnnotationRec → AnnotationRec) → Store × Nat
  | [], _, _ => ([], 0)
  | r :: rest, id, f =>
      if r.id = id then (f r :: rest, 1)
      else
        let p := updateOneByID rest id f
        (r :: p.1, p.2)

/-- `collection.DeleteOne(ctx, bson.M{"_id": id})`: remove the first matching
document, returning the new store and the deleted count. -/
def deleteOneByID : Store → GoStr → Store × Nat
  | [], _ => ([], 0)
  | r :: rest, id =>
      if r.id = id then (rest, 1)
      else
        let p := deleteOneByID rest id
        (r :: p.1, p.2)

/-- annotation_service.go `GetAnnotationByID`. -/
def GetAnnotationByID (store : Store) (annotationID : GoStr) :
    Except GoStr AnnotationRec :=
  match findByID store annotationID with
  | none => .error ("annotation not found".toList)
  | some r => .ok r

/-- pdf_parser.go `GetParser`: only "pdf" / ".pdf" (lowercased) have a parser;
the dispatch is modelled by the supported test. -/
def getParserSupported (fileType : GoStr) : Bool :=
  fileType.map Char.toLower = ("pdf".toList) ||
    fileType.map Char.toLower = (".pdf".toList)

/-- pdf_parser.go `ExtractTextFromReader`: the PDF library's concatenated page
text (or its failure) is the oracle `rawRes`; the repository's own steps are
`cleanExtractedText` and the empty-result check. -/
def ExtractTextFromReader (rawRes : Except GoStr GoStr) : Except GoStr GoStr :=
  match rawRes with
  | .error e => .error e
  | .ok raw =>
      let extractedText := cleanExtractedText raw
      if extractedText.isEmpty then
        .error ("no text content found in PDF".toList)
      else .ok extractedText

/-- annotation_service.go `extractTextFromStream`: dispatch on the file type,
then run the parser on the stream. -/
def extractTextFromStream (fileType : GoStr) (rawRes : Except GoStr GoStr) :
    Except GoStr GoStr :=
  if getParserSupported fileType then ExtractTextFromReader rawRes
  else .error (("unsupported file type: ".toList) ++ fileType)

/-- ollama_client.go `GenerateAnnotationWithGenre`: the HTTP exchange with the
model endpoint is the oracle `ollamaRes` (transport/status/decoding failures
as `.error`, the decoded `response` field as `.ok`); the repository then trims
it, rejects a blank response, and parses genre and body. -/
def GenerateAnnotationWithGenre (ollamaRes : Except GoStr GoStr) :
    Except GoStr AnnotationWithGenre :=
  match ollamaRes with
  | .error e => .error e
  | .ok resp =>
      let responseText := trimSpace resp
      if responseText.isEmpty then
        .error ("received empty response from Ollama".toList)
      else .ok (parseAnnotationResponse responseText)

/-- Result of `CreateAnnotationFromStream`: the value returned to the handler
and the collection contents afterwards. -/
structure CreateResult where
  result : Except GoStr AnnotationRec
  store : Store
deriving DecidableEq

/-- annotation_service.go `CreateAnnotationFromStream` (lines 35-73): allocate
the record, extract text (returning the error with nothing persisted on
failure), generate body and genre (persisting a "failed" record on failure),
then persist the "completed" record. -/
def CreateAnnotationFromStream (store : Store) (newID : GoStr) (now : Nat)
    (userID title image fileType : GoStr)
    (rawRes ollamaRes : Except GoStr GoStr) : CreateResult :=
  let a0 := NewAnnotationRec newID now userID title [] fileType
  let a1 := { a0 with image := image }
  match extractTextFromStream fileType rawRes with
  | .error e =>
      { result := .error (("failed to extract text: ".toList) ++ e),
        store  := store }
  | .ok text =>
      let a2 := { a1 with textContent := text }
      match GenerateAnnotationWithGenre ollamaRes with
      | .error e =>
          let a3 := { a2 with
            status := ("failed".toList),
            errorMessage := ("Annotation generation failed: ".toList) ++ e }
          { result := .error (("failed to generate annotation: ".toList) ++ e),
            store  := store ++ [a3] }
      | .ok res =>
          let a3 := { a2 with
            annotationBody := res.annotationBody,
            genre := res.genre,
            status := ("completed".toList),
            updatedAt := now }
          { result := .ok a3, store := store ++ [a3] }

/-- Result of `GenerateTTSForAnnotation`: the returned value, the collection
afterwards, and how many synthesize-and-upload calls reached the AWS backend. -/
structure TTSResult where
  result : Except GoStr AnnotationRec
  store : Store
  ttsCalls : Nat
deriving DecidableEq

/-- annotation_service.go `GenerateTTSForAnnotation` (lines 76-122): fetch the
record, reject an empty body, reject a missing AWS service, then synthesize
and upload (oracle `aws`: `none` models `awsService == nil`, `some res` the
outcome of `GenerateAndUploadTTS`) and patch `tts_url` and `updated_at`. -/
def GenerateTTSForAnnotationSvc (store : Store) (now : Nat)
    (annotationID : GoStr) (aws : Option (Except GoStr GoStr)) : TTSResult :=
  match GetAnnotationByID store annotationID with
  | .error e => { result := .error e, store := store, ttsCalls := 0 }
  | .ok a =>
      if a.annotationBody.isEmpty then
        { result := .error ("annotation text is empty".toList),
          store := store, ttsCalls := 0 }
      else
        match aws with
        | none =>
            { result := .error ("AWS service not configured".toList),
              store := store, ttsCalls := 0 }
        | some ttsRes =>
            match ttsRes with
            | .error e =>
                { result := .error (("failed to generate TTS: ".toList) ++ e),
                  store := store, ttsCalls := 1 }
            | .ok url =>
                let store2 := (updateOneByID store annotationID
                  fun r => { r with ttsURL := url, updatedAt := now }).1
                match GetAnnotationByID store2 annotationID with
                | .error e =>
                    { result := .error e, store := store2, ttsCalls := 1 }
                | .ok a2 =>
                    { result := .ok a2, store := store2, ttsCalls := 1 }

/-- models/annotation.go `UpdateAnnotationRequest`: nullable patch fields;
`annotationBody` models the Go field `Annotation`. -/
structure UpdateAnnotationRequest where
  title : Option GoStr
  image : Option GoStr
  annotationBody : Option GoStr
  genre : Option GoStr
deriving DecidableEq

/-- The `$set` document built by `UpdateAnnotation`: always `updated_at`, plus
every present patch field. -/
def applySet (req : UpdateAnnotationRequest) (now : Nat)
    (r : AnnotationRec) : AnnotationRec :=
  let r1 := { r with updatedAt := now }
  let r2 := match req.title with
    | some t => { r1 with title := t }
    | none => r1
  let r3 := match req.image with
    | some i => { r2 with image := i }
    | none => r2
  let r4 := match req.annotationBody with
    | some a => { r3 with annotationBody := a }
    | none => r3
  match req.genre with
  | some g => { r4 with genre := g }
  | none => r4

/-- annotation_service.go `UpdateAnnotation` (lines 125-162): apply the `$set`
to the matching record; a zero matched count is "annotation not found";
otherwise re-read and return the record. -/
def UpdateAnnotationSvc (store : Store) (now : Nat)
    (annotationID userID : GoStr) (req : UpdateAnnotationRequest) :
    Except GoStr AnnotationRec × Store :=
  let p := updateOneByID store annotationID (applySet req now)
  if p.2 = 0 then (.error ("annotation not found".toList), p.1)
  else
    match GetAnnotationByID p.1 annotationID with
    | .error e => (.error e, p.1)
    | .ok a => (.ok a, p.1)

/-- annotation_service.go `DeleteAnnotation` (lines 235-250): delete the
matching record; a zero deleted count is "annotation not found". -/
def DeleteAnnotationSvc (store : Store) (annotationID userID : GoStr) :
    Except GoStr Unit × Store :=
  let p := deleteOneByID store annotationID
  if p.2 = 0 then (.error ("annotation not found".toList), p.1)
  else (.ok (), p.1)

/-- The user document of the `users` collection (middleware/auth_middleware.go
`User`): `password` holds the bcrypt hash. -/
structure User where
  id : GoStr
  email : GoStr
  password : GoStr
  name : GoStr
  role : GoStr
deriving DecidableEq

abbrev UserStore := List User

/-- `collection.FindOne(ctx, bson.M{"email": email})` on the users store. -/
def findByEmail : UserStore → GoStr → Option User
  | [], _ => none
  | u :: rest, email => if u.email = email then some u else findByEmail rest email

/-- The successful login payload (user id, email, signed token). -/
structure AuthResponseM where
  userID : GoStr
  email : GoStr
  token : GoStr
deriving DecidableEq

/-- annotation_service.go `Login` (auth service, lines 402-429): fetch by
email, verify the bcrypt hash (oracle `bcryptOK hash password`), sign a token
(oracle `genToken`); both the missing-user case and the bad-password case
return the same "invalid email or password" error. -/
def Login (users : UserStore) (bcryptOK : GoStr → GoStr → Bool)
    (genToken : User → Except GoStr GoStr) (reqEmail reqPassword : GoStr) :
    Except GoStr AuthResponseM :=
  match findByEmail users reqEmail with
  | none => .error ("invalid email or password".toList)
  | some user =>
      if bcryptOK user.password reqPassword then
        match genToken user with
        | .error _ => .error ("failed to generate token".toList)
        | .ok token => .ok { userID := user.id, email := user.email, token := token }
      else .error ("invalid email or password".toList)

/-- No carriage return occurs in the string. -/
def noCR (s : GoStr) : Prop := ∀ c ∈ s, c ≠ '\r'

/-- Neither the first nor the last character (when present) is whitespace
(the last character is the head of the reversal). -/
def noEdgeSpace (l : GoStr) : Prop :=
  (∀ c ∈ l.head?, goIsSpace c = false) ∧
    (∀ c ∈ l.reverse.head?, goIsSpace c = false)

example : parseAnnotationResponse ("GENRE: Fiction\nA story.".toList) =
    { annotationBody := ("A story.".toList), genre := ("Fiction".toList) } := by
  decide

example : parseAnnotationResponse ("hello\nworld".toList) =
    { annotationBody := ("hello\nworld".toList), genre := ("Other".toList) } := by
  decide

example : cleanExtractedText ("  a   b \r\n\r\n c ".toList) = ("a b\nc".toList) := by
  decide

/-- `strings.Split` never returns an empty slice. -/
theorem splitOnNL_ne_nil (s : GoStr) : splitOnNL s ≠ [] := by
  cases s with
  | nil => simp [splitOnNL]
  | cons c rest =>
      simp only [splitOnNL]
      split
      · simp
      · split <;> simp

/-- C4: a model response whose first line (trimmed) lacks the "GENRE:" prefix
parses to genre "Other" with the entire response as body; the parse function
is a total Lean function, so it is defined on every input string. -/
theorem c4_default_genre_other (resp : GoStr)
    (h : goHasPfx (trimSpace ((splitOnNL resp).headD []))
      ("GENRE:".toList) = false) :
    parseAnnotationResponse resp =
      { annotationBody := resp, genre := ("Other".toList) } := by
  unfold parseAnnotationResponse
  cases hs : splitOnNL resp with
  | nil => exact absurd hs (splitOnNL_ne_nil resp)
  | cons l0 rest =>
      rw [hs] at h
      simp only [List.headD_cons] at h
      simp only [h, Bool.false_eq_true, if_false]
      split <;> rfl

/-- Witness for `c4_default_genre_other` at the concrete response "plain text". -/
theorem c4_witness :
    goHasPfx (trimSpace ((splitOnNL ("plain text".toList)).headD []))
        ("GENRE:".toList) = false ∧
    parseAnnotationResponse ("plain text".toList) =
      { annotationBody := ("plain text".toList), genre := ("Other".toList) } :=
  ⟨by decide, c4_default_genre_other ("plain text".toList) (by decide)⟩

/-- C3 counterexample: for the response consisting of only the line
"GENRE: Fiction" (the prefix matches and there are no further lines), the
parser does not return an empty body — the empty-body fallback substitutes
the entire response. -/
theorem c3_counterexample :
    goHasPfx (trimSpace ((splitOnNL ("GENRE: Fiction".toList)).headD []))
        ("GENRE:".toList) = true ∧
    (splitOnNL ("GENRE: Fiction".toList)).tail = [] ∧
    parseAnnotationResponse ("GENRE: Fiction".toList) =
      { annotationBody := ("GENRE: Fiction".toList),
        genre := ("Fiction".toList) } ∧
    ("GENRE: Fiction".toList) ≠ ([] : GoStr) := by
  decide

/-- C3 (amended): when the trimmed first line starts with "GENRE:", the label
after the prefix (trimmed) becomes the genre and the remaining lines (joined
and trimmed) become the body — except that an empty body (in particular for a
response of only the GENRE line) falls back to the entire response. -/
theorem c3_genre_line_parsing (resp : GoStr)
    (h : goHasPfx (trimSpace ((splitOnNL resp).headD []))
      ("GENRE:".toList) = true) :
    parseAnnotationResponse resp =
      { annotationBody :=
          if trimSpace (joinNL ((splitOnNL resp).tail)) = [] then resp
          else trimSpace (joinNL ((splitOnNL resp).tail)),
        genre := trimSpace (goTrimPfx (trimSpace ((splitOnNL resp).headD []))
          ("GENRE:".toList)) } := by
  unfold parseAnnotationResponse
  cases hs : splitOnNL resp with
  | nil => exact absurd hs (splitOnNL_ne_nil resp)
  | cons l0 rest =>
      rw [hs] at h
      simp only [List.headD] at h ⊢
      simp only [h, if_true, List.tail_cons]
      cases rest with
      | nil => simp [joinNL, trimSpace]
      | cons l1 ls =>
          simp only [List.isEmpty_cons, if_false, Bool.false_eq_true]
          by_cases hb : trimSpace (joinNL (l1 :: ls)) = []
          · simp [hb, List.isEmpty_nil]
          · simp [hb, List.isEmpty_eq_true]

/-- Witness for `c3_genre_line_parsing` at the response "GENRE: X\nhello". -/
theorem c3_witness :
    goHasPfx (trimSpace ((splitOnNL ("GENRE: X\nhello".toList)).headD []))
        ("GENRE:".toList) = true ∧
    parseAnnotationResponse ("GENRE: X\nhello".toList) =
      { annotationBody :=
          if trimSpace (joinNL ((splitOnNL ("GENRE: X\nhello".toList)).tail)) = []
          then ("GENRE: X\nhello".toList)
          else trimSpace (joinNL ((splitOnNL ("GENRE: X\nhello".toList)).tail)),
        genre := trimSpace (goTrimPfx
          (trimSpace ((splitOnNL ("GENRE: X\nhello".toList)).headD []))
          ("GENRE:".toList)) } :=
  ⟨by decide, c3_genre_line_parsing ("GENRE: X\nhello".toList) (by decide)⟩

/-- An `UpdateOne` whose filter matches nothing leaves the store unchanged and
reports a zero matched count. -/
theorem updateOneByID_not_found {store : Store} {id : GoStr}
    (f : AnnotationRec → AnnotationRec) (h : findByID store id = none) :
    updateOneByID store id f = (store, 0) := by
  induction store with
  | nil => rfl
  | cons a rest ih =>
      by_cases ha : a.id = id
      · simp [findByID, ha] at h
      · simp only [findByID, ha, if_false] at h
        simp [updateOneByID, ha, ih h]

/-- An `UpdateOne` whose filter matches rewrites the first matching document
(and only it) and reports a matched count of one. -/
theorem updateOneByID_found {store : Store} {id : GoStr} {r : AnnotationRec}
    (f : AnnotationRec → AnnotationRec) (hid : (f r).id = r.id)
    (h : findByID store id = some r) :
    (updateOneByID store id f).2 = 1 ∧
    findByID (updateOneByID store id f).1 id = some (f r) := by
  induction store with
  | nil => simp [findByID] at h
  | cons a rest ih =>
      by_cases ha : a.id = id
      · simp only [findByID, ha, if_true, Option.some.injEq] at h
        subst h
        refine ⟨by simp [updateOneByID, ha], ?_⟩
        simp [updateOneByID, ha, findByID, hid]
      · simp only [findByID, ha, if_false] at h
        obtain ⟨h1, h2⟩ := ih h
        exact ⟨by simp [updateOneByID, ha, h1],
          by simpa [updateOneByID, ha, findByID] using h2⟩

/-- A `DeleteOne` whose filter matches nothing leaves the store unchanged and
reports a zero deleted count. -/
theorem deleteOneByID_not_found {store : Store} {id : GoStr}
    (h : findByID store id = none) :
    deleteOneByID store id = (store, 0) := by
  induction store with
  | nil => rfl
  | cons a rest ih =>
      by_cases ha : a.id = id
      · simp [findByID, ha] at h
      · simp only [findByID, ha, if_false] at h
        simp [deleteOneByID, ha, ih h]

/-- When no document carries the wanted id, `FindOne` returns nothing. -/
theorem findByID_eq_none_of_all_ne {store : Store} {id : GoStr}
    (h : ∀ r ∈ store, r.id ≠ id) : findByID store id = none := by
  induction store with
  | nil => rfl
  | cons a rest ih =>
      simp only [findByID, h a (by simp), if_false]
      exact ih fun r hr => h r (by simp [hr])

/-- With pairwise distinct ids (MongoDB's unique `_id` index), a matched
`DeleteOne` removes the only document with that id: the deleted count is one
and a subsequent lookup misses. -/
theorem deleteOneByID_found {store : Store} {id : GoStr} {r : AnnotationRec}
    (hnodup : (store.map AnnotationRec.id).Nodup)
    (h : findByID store id = some r) :
    (deleteOneByID store id).2 = 1 ∧
    findByID (deleteOneByID store id).1 id = none := by
  induction store with
  | nil => simp [findByID] at h
  | cons a rest ih =>
      simp only [List.map_cons, List.nodup_cons] at hnodup
      obtain ⟨hni, hrest⟩ := hnodup
      by_cases ha : a.id = id
      · refine ⟨by simp [deleteOneByID, ha], ?_⟩
        simp only [deleteOneByID, ha, if_true]
        exact findByID_eq_none_of_all_ne fun r' hr' => by
          intro hEq
          have hmem : a.id ∈ List.map AnnotationRec.id rest := by
            rw [ha, ← hEq]
            exact List.mem_map_of_mem _ hr'
          exact hni hmem
      · simp only [findByID, ha, if_false] at h
        obtain ⟨h1, h2⟩ := ih hrest h
        exact ⟨by simp [deleteOneByID, ha, h1],
          by simpa [deleteOneByID, ha, findByID] using h2⟩

/-- C5: `GenerateTTSForAnnotation` fails "annotation not found" on a missing
record; on a record with empty body it fails "annotation text is empty" with
the store untouched and zero calls to the speech backend (whatever `aws` is);
and "AWS service not configured" is reached only with a non-empty body. -/
theorem c5_tts_guard_order (store : Store) (now : Nat) (annotationID : GoStr)
    (aws : Option (Except GoStr GoStr)) :
    (findByID store annotationID = none →
      GenerateTTSForAnnotationSvc store now annotationID aws =
        { result := .error ("annotation not found".toList),
          store := store, ttsCalls := 0 }) ∧
    (∀ r, findByID store annotationID = some r → r.annotationBody = [] →
      GenerateTTSForAnnotationSvc store now annotationID aws =
        { result := .error ("annotation text is empty".toList),
          store := store, ttsCalls := 0 }) ∧
    (∀ r, findByID store annotationID = some r → r.annotationBody ≠ [] →
      aws = none →
      GenerateTTSForAnnotationSvc store now annotationID aws =
        { result := .error ("AWS service not configured".toList),
          store := store, ttsCalls := 0 }) := by
  refine ⟨fun h => ?_, fun r hr hb => ?_, fun r hr hb ha => ?_⟩
  · simp [GenerateTTSForAnnotationSvc, GetAnnotationByID, h]
  · simp [GenerateTTSForAnnotationSvc, GetAnnotationByID, hr, hb]
  · subst ha
    simp [GenerateTTSForAnnotationSvc, GetAnnotationByID, hr,
      List.isEmpty_iff, hb]

/-- Witness for `c5_tts_guard_order`: a one-record store whose record has an
empty body; the empty-body branch fires even though no backend is configured. -/
theorem c5_witness :
    GenerateTTSForAnnotationSvc
        [NewAnnotationRec ("a1".toList) 0 ("u1".toList) ("t".toList) []
          ("pdf".toList)] 7 ("a1".toList) none =
      { result := .error ("annotation text is empty".toList),
        store := [NewAnnotationRec ("a1".toList) 0 ("u1".toList) ("t".toList)
          [] ("pdf".toList)],
        ttsCalls := 0 } :=
  (c5_tts_guard_order
    [NewAnnotationRec ("a1".toList) 0 ("u1".toList) ("t".toList) []
      ("pdf".toList)] 7 ("a1".toList) none).2.1
    (NewAnnotationRec ("a1".toList) 0 ("u1".toList) ("t".toList) []
      ("pdf".toList)) (by decide) (by decide)

/-- C8: `Login` returns the identical "invalid email or password" error both
for an email matching no user and for an existing user whose password hash
verification fails. -/
theorem c8_login_uniform_error (users : UserStore)
    (bcryptOK : GoStr → GoStr → Bool) (genToken : User → Except GoStr GoStr)
    (e1 p1 e2 p2 : GoStr) (u : User)
    (h1 : findByEmail users e1 = none)
    (h2 : findByEmail users e2 = some u)
    (h3 : bcryptOK u.password p2 = false) :
    Login users bcryptOK genToken e1 p1 = Login users bcryptOK genToken e2 p2 ∧
    Login users bcryptOK genToken e1 p1 =
      .error ("invalid email or password".toList) := by
  constructor
  · simp [Login, h1, h2, h3]
  · simp [Login, h1]

/-- Witness for `c8_login_uniform_error`: one stored user, a login with an
unknown email and a login with the stored email but a failing hash check. -/
theorem c8_witness :
    Login [⟨("u1".toList), ("a@b.c".toList), ("hash".toList), ("n".toList), []⟩]
      (fun _ _ => false) (fun _ => .ok ("tok".toList))
      ("x@y.z".toList) ("pw".toList) =
    Login [⟨("u1".toList), ("a@b.c".toList), ("hash".toList), ("n".toList), []⟩]
      (fun _ _ => false) (fun _ => .ok ("tok".toList))
      ("a@b.c".toList) ("pw2".toList) :=
  (c8_login_uniform_error
    [⟨("u1".toList), ("a@b.c".toList), ("hash".toList), ("n".toList), []⟩]
    (fun _ _ => false) (fun _ => .ok ("tok".toList))
    ("x@y.z".toList) ("pw".toList) ("a@b.c".toList) ("pw2".toList)
    ⟨("u1".toList), ("a@b.c".toList), ("hash".toList), ("n".toList), []⟩
    (by decide) (by decide) rfl).1

/-- C7: deleting a missing id fails "annotation not found" with the store
unchanged; deleting an existing record (ids being unique, as MongoDB's `_id`
index guarantees) succeeds once and fails on the second call. -/
theorem c7_delete_not_idempotent (store : Store) (annotationID userID : GoStr)
    (hnodup : (store.map AnnotationRec.id).Nodup) :
    (findByID store annotationID = none →
      DeleteAnnotationSvc store annotationID userID =
        (.error ("annotation not found".toList), store)) ∧
    (∀ r, findByID store annotationID = some r →
      (DeleteAnnotationSvc store annotationID userID).1 = .ok () ∧
      (DeleteAnnotationSvc (DeleteAnnotationSvc store annotationID userID).2
          annotationID userID).1 =
        .error ("annotation not found".toList)) := by
  constructor
  · intro h
    simp [DeleteAnnotationSvc, deleteOneByID_not_found h]
  · intro r hr
    obtain ⟨h1, h2⟩ := deleteOneByID_found hnodup hr
    constructor
    · simp [DeleteAnnotationSvc, h1]
    · have hs2 : (DeleteAnnotationSvc store annotationID userID).2 =
          (deleteOneByID store annotationID).1 := by
        simp [DeleteAnnotationSvc, h1]
      rw [hs2]
      simp [DeleteAnnotationSvc, deleteOneByID_not_found h2]

/-- Witness for `c7_delete_not_idempotent`: a single-record store; the first
delete succeeds, the second fails. -/
theorem c7_witness :
    (DeleteAnnotationSvc
        [NewAnnotationRec ("a1".toList) 0 ("u1".toList) ("t".toList) []
          ("pdf".toList)] ("a1".toList) ("u1".toList)).1 = .ok () ∧
    (DeleteAnnotationSvc
        (DeleteAnnotationSvc
          [NewAnnotationRec ("a1".toList) 0 ("u1".toList) ("t".toList) []
            ("pdf".toList)] ("a1".toList) ("u1".toList)).2
        ("a1".toList) ("u1".toList)).1 =
      .error ("annotation not found".toList) :=
  (c7_delete_not_idempotent
    [NewAnnotationRec ("a1".toList) 0 ("u1".toList) ("t".toList) []
      ("pdf".toList)] ("a1".toList) ("u1".toList) (by decide)).2
    (NewAnnotationRec ("a1".toList) 0 ("u1".toList) ("t".toList) []
      ("pdf".toList)) (by decide)

/-- Field-by-field effect of the `$set` document of `UpdateAnnotation`:
`updated_at` is always rewritten to the call instant, absent patch fields are
left alone, and the fields outside the patchable set are never touched. -/
theorem applySet_fields (req : UpdateAnnotationRequest) (now : Nat)
    (r : AnnotationRec) :
    (applySet req now r).updatedAt = now ∧
    (applySet req now r).id = r.id ∧
    (applySet req now r).userID = r.userID ∧
    (applySet req now r).sourceFile = r.sourceFile ∧
    (applySet req now r).sourceType = r.sourceType ∧
    (applySet req now r).textContent = r.textContent ∧
    (applySet req now r).ttsURL = r.ttsURL ∧
    (applySet req now r).status = r.status ∧
    (applySet req now r).errorMessage = r.errorMessage ∧
    (applySet req now r).createdAt = r.createdAt ∧
    (req.title = none → (applySet req now r).title = r.title) ∧
    (req.image = none → (applySet req now r).image = r.image) ∧
    (req.annotationBody = none →
      (applySet req now r).annotationBody = r.annotationBody) ∧
    (req.genre = none → (applySet req now r).genre = r.genre) := by
  obtain ⟨t, i, a, g⟩ := req
  cases t <;> cases i <;> cases a <;> cases g <;> simp [applySet]

/-- C6: `UpdateAnnotation` fails "annotation not found" (store unchanged) on a
missing id; on an existing record it returns the patched record, whose
`updated_at` is the call instant, whose absent patch fields are unchanged, and
whose non-patchable fields (status, text content, TTS URL, creation time, id,
owner, source, error message) are always unchanged. -/
theorem c6_update_frame (store : Store) (now : Nat) (annotationID userID : GoStr)
    (req : UpdateAnnotationRequest) :
    (findByID store annotationID = none →
      UpdateAnnotationSvc store now annotationID userID req =
        (.error ("annotation not found".toList), store)) ∧
    (∀ r, findByID store annotationID = some r →
      UpdateAnnotationSvc store now annotationID userID req =
        (.ok (applySet req now r),
          (updateOneByID store annotationID (applySet req now)).1) ∧
      (applySet req now r).updatedAt = now ∧
      (r.updatedAt < now → r.updatedAt < (applySet req now r).updatedAt) ∧
      (req.title = none → (applySet req now r).title = r.title) ∧
      (req.image = none → (applySet req now r).image = r.image) ∧
      (req.annotationBody = none →
        (applySet req now r).annotationBody = r.annotationBody) ∧
      (req.genre = none → (applySet req now r).genre = r.genre) ∧
      (applySet req now r).status = r.status ∧
      (applySet req now r).textContent = r.textContent ∧
      (applySet req now r).ttsURL = r.ttsURL ∧
      (applySet req now r).createdAt = r.createdAt ∧
      (applySet req now r).id = r.id ∧
      (applySet req now r).userID = r.userID ∧
      (applySet req now r).sourceFile = r.sourceFile ∧
      (applySet req now r).sourceType = r.sourceType ∧
      (applySet req now r).errorMessage = r.errorMessage) := by
  constructor
  · intro h
    simp [UpdateAnnotationSvc, updateOneByID_not_found _ h]
  · intro r hr
    obtain ⟨hA1, hA2, hA3, hA4, hA5, hA6, hA7, hA8, hA9, hA10, hA11, hA12,
      hA13, hA14⟩ := applySet_fields req now r
    obtain ⟨hm, hf⟩ := updateOneByID_found (applySet req now) (by rw [hA2]) hr
    refine ⟨?_, hA1, ?_, hA11, hA12, hA13, hA14, hA8, hA6, hA7, hA10, hA2,
      hA3, hA4, hA5, hA9⟩
    · simp [UpdateAnnotationSvc, hm, GetAnnotationByID, hf]
    · intro hlt
      rw [hA1]
      exact hlt

/-- Witness for `c6_update_frame`: the all-absent patch on a one-record store
leaves every content field alone and stamps `updated_at` with the call time. -/
theorem c6_witness :
    UpdateAnnotationSvc
        [NewAnnotationRec ("a1".toList) 0 ("u1".toList) ("t".toList) []
          ("pdf".toList)] 5 ("a1".toList) ("u1".toList)
        ⟨none, none, none, none⟩ =
      (.ok (applySet ⟨none, none, none, none⟩ 5
          (NewAnnotationRec ("a1".toList) 0 ("u1".toList) ("t".toList) []
            ("pdf".toList))),
        (updateOneByID
          [NewAnnotationRec ("a1".toList) 0 ("u1".toList) ("t".toList) []
            ("pdf".toList)] ("a1".toList)
          (applySet ⟨none, none, none, none⟩ 5)).1) ∧
    (applySet ⟨none, none, none, none⟩ 5
        (NewAnnotationRec ("a1".toList) 0 ("u1".toList) ("t".toList) []
          ("pdf".toList))).title =
      (NewAnnotationRec ("a1".toList) 0 ("u1".toList) ("t".toList) []
        ("pdf".toList)).title ∧
    (applySet ⟨none, none, none, none⟩ 5
        (NewAnnotationRec ("a1".toList) 0 ("u1".toList) ("t".toList) []
          ("pdf".toList))).updatedAt = 5 :=
  have h := (c6_update_frame
    [NewAnnotationRec ("a1".toList) 0 ("u1".toList) ("t".toList) []
      ("pdf".toList)] 5 ("a1".toList) ("u1".toList)
    ⟨none, none, none, none⟩).2
    (NewAnnotationRec ("a1".toList) 0 ("u1".toList) ("t".toList) []
      ("pdf".toList)) (by decide)
  ⟨h.1, h.2.2.2.1 rfl, h.2.1⟩

/-- A non-blank response never parses to an empty body: either the GENRE-line
body is non-empty, or the fallback substitutes the whole response. -/
theorem parse_body_ne_nil (resp : GoStr) (h : resp ≠ []) :
    (parseAnnotationResponse resp).annotationBody ≠ [] := by
  unfold parseAnnotationResponse
  cases hs : splitOnNL resp with
  | nil => exact absurd hs (splitOnNL_ne_nil resp)
  | cons l0 rest =>
      by_cases hp : goHasPfx (trimSpace l0) ("GENRE:".toList) = true
      · simp only [hp, if_true]
        by_cases hr : rest = []
        · subst hr
          simp [h]
        · by_cases hb : trimSpace (joinNL rest) = []
          · simp [hr, hb, h]
          · simp [hr, hb]
      · simp only [hp]
        simp only [Bool.not_eq_true] at hp
        simp only [hp, Bool.false_eq_true, if_false]
        by_cases hr : (resp.isEmpty : Bool)
        · exact absurd (by simpa [List.isEmpty_iff] using hr) h
        · simp only [hr, Bool.false_eq_true, if_false]
          exact h

/-- A successful `GenerateAnnotationWithGenre` carries a non-empty body. -/
theorem gen_ok_body_ne_nil {ollamaRes : Except GoStr GoStr}
    {res : AnnotationWithGenre}
    (h : GenerateAnnotationWithGenre ollamaRes = .ok res) :
    res.annotationBody ≠ [] := by
  unfold GenerateAnnotationWithGenre at h
  cases ollamaRes with
  | error e => simp at h
  | ok resp =>
      by_cases ht : (trimSpace resp).isEmpty
      · simp [ht] at h
      · simp only [ht, Bool.false_eq_true, if_false, Except.ok.injEq] at h
        rw [← h]
        exact parse_body_ne_nil (trimSpace resp)
          (by simpa [List.isEmpty_iff] using ht)

/-- C2 counterexample: a concrete upload whose model response is
"GENRE:\nhello" (an empty genre label) produces a record with status
"completed" and an empty genre, refuting the non-empty-genre half of the
invariant. -/
theorem c2_counterexample :
    (CreateAnnotationFromStream [] ("id1".toList) 0 ("u1".toList) ("t".toList)
        [] ("pdf".toList) (.ok ("Sample text".toList))
        (.ok ("GENRE:\nhello".toList))).result =
      .ok { id := ("id1".toList), userID := ("u1".toList),
            title := ("t".toList), image := [], sourceFile := [],
            sourceType := ("pdf".toList),
            textContent := ("Sample text".toList),
            annotationBody := ("hello".toList), genre := [],
            ttsURL := [], status := ("completed".toList), errorMessage := [],
            createdAt := 0, updatedAt := 0 } := by
  decide

/-- C2 (amended): any record returned by a successful
`CreateAnnotationFromStream` has status "completed" and a non-empty body
(the genre, however, can be empty — see the counterexample); and the body of
any non-empty parsed model response is non-empty. -/
theorem c2_completed_body_nonempty :
    (∀ (store : Store) (newID : GoStr) (now : Nat)
        (userID title image fileType : GoStr)
        (rawRes ollamaRes : Except GoStr GoStr) (rec : AnnotationRec),
      (CreateAnnotationFromStream store newID now userID title image fileType
          rawRes ollamaRes).result = .ok rec →
      rec.status = ("completed".toList) ∧ rec.annotationBody ≠ []) ∧
    (∀ resp : GoStr, resp ≠ [] →
      (parseAnnotationResponse resp).annotationBody ≠ []) := by
  constructor
  · intro store newID now userID title image fileType rawRes ollamaRes rec h
    unfold CreateAnnotationFromStream at h
    cases hext : extractTextFromStream fileType rawRes with
    | error e => rw [hext] at h; simp at h
    | ok text =>
        rw [hext] at h
        cases hgen : GenerateAnnotationWithGenre ollamaRes with
        | error e => rw [hgen] at h; simp at h
        | ok res =>
            rw [hgen] at h
            simp only [Except.ok.injEq] at h
            rw [← h]
            exact ⟨rfl, gen_ok_body_ne_nil hgen⟩
  · exact parse_body_ne_nil

/-- Witness for `c2_completed_body_nonempty` at a concrete upload and at the
concrete response "plain". -/
theorem c2_witness :
    ((⟨("id1".toList), ("u1".toList), ("t".toList), [], [], ("pdf".toList),
        ("Sample text".toList), ("A story.".toList), ("Fiction".toList), [],
        ("completed".toList), [], 0, 0⟩ : AnnotationRec).status =
      ("completed".toList) ∧
      (⟨("id1".toList), ("u1".toList), ("t".toList), [], [], ("pdf".toList),
        ("Sample text".toList), ("A story.".toList), ("Fiction".toList), [],
        ("completed".toList), [], 0, 0⟩ : AnnotationRec).annotationBody ≠ []) ∧
    (parseAnnotationResponse ("plain".toList)).annotationBody ≠ [] :=
  ⟨c2_completed_body_nonempty.1 [] ("id1".toList) 0 ("u1".toList)
      ("t".toList) [] ("pdf".toList) (.ok ("Sample text".toList))
      (.ok ("GENRE: Fiction\nA story.".toList)) _ (by decide),
    c2_completed_body_nonempty.2 ("plain".toList) (by decide)⟩

/-- C1 counterexample: a concrete upload whose PDF parse fails leaves the
collection empty — no "failed" record is persisted for extraction failures;
the call only returns the wrapped extraction error. -/
theorem c1_counterexample :
    (CreateAnnotationFromStream [] ("id1".toList) 0 ("u1".toList) ("t".toList)
        [] ("pdf".toList) (.error ("failed to parse PDF: EOF".toList))
        (.ok ("GENRE: Fiction\nA story.".toList))).store = ([] : Store) ∧
    (CreateAnnotationFromStream [] ("id1".toList) 0 ("u1".toList) ("t".toList)
        [] ("pdf".toList) (.error ("failed to parse PDF: EOF".toList))
        (.ok ("GENRE: Fiction\nA story.".toList))).result =
      .error ("failed to extract text: failed to parse PDF: EOF".toList) := by
  decide

/-- C1 (amended): a text-extraction failure makes `CreateAnnotationFromStream`
return the wrapped error with the store untouched (nothing persisted), while a
generation failure persists the record with status "failed" and the
generator's error text before returning the wrapped error. -/
theorem c1_create_failure_persistence (store : Store) (newID : GoStr)
    (now : Nat) (userID title image fileType : GoStr)
    (rawRes ollamaRes : Except GoStr GoStr) :
    (∀ e, extractTextFromStream fileType rawRes = .error e →
      CreateAnnotationFromStream store newID now userID title image fileType
          rawRes ollamaRes =
        { result := .error (("failed to extract text: ".toList) ++ e),
          store  := store }) ∧
    (∀ text e, extractTextFromStream fileType rawRes = .ok text →
      GenerateAnnotationWithGenre ollamaRes = .error e →
      CreateAnnotationFromStream store newID now userID title image fileType
          rawRes ollamaRes =
        { result := .error (("failed to generate annotation: ".toList) ++ e),
          store  := store ++
            [{ NewAnnotationRec newID now userID title [] fileType with
               image := image,
               textContent := text,
               status := ("failed".toList),
               errorMessage :=
                 ("Annotation generation failed: ".toList) ++ e }] }) := by
  constructor
  · intro e he
    unfold CreateAnnotationFromStream
    rw [he]
  · intro text e ht hg
    unfold CreateAnnotationFromStream
    rw [ht, hg]

/-- Witness for `c1_create_failure_persistence`: both failure shapes at
concrete inputs — a failing PDF parse persisting nothing, and a failing
generation persisting the "failed" record. -/
theorem c1_witness :
    CreateAnnotationFromStream [] ("id1".toList) 0 ("u1".toList) ("t".toList)
        [] ("pdf".toList) (.error ("EOF".toList)) (.ok ("resp".toList)) =
      { result := .error ("failed to extract text: EOF".toList),
        store  := [] } ∧
    CreateAnnotationFromStream [] ("id1".toList) 0 ("u1".toList) ("t".toList)
        [] ("pdf".toList) (.ok ("Sample text".toList))
        (.error ("connection refused".toList)) =
      { result :=
          .error ("failed to generate annotation: connection refused".toList),
        store  :=
          [{ NewAnnotationRec ("id1".toList) 0 ("u1".toList) ("t".toList) []
              ("pdf".toList) with
             image := [],
             textContent := ("Sample text".toList),
             status := ("failed".toList),
             errorMessage :=
               ("Annotation generation failed: connection refused".toList) }] } :=
  ⟨(c1_create_failure_persistence [] ("id1".toList) 0 ("u1".toList)
      ("t".toList) [] ("pdf".toList) (.error ("EOF".toList))
      (.ok ("resp".toList))).1 ("EOF".toList) (by decide),
    (c1_create_failure_persistence [] ("id1".toList) 0 ("u1".toList)
      ("t".toList) [] ("pdf".toList) (.ok ("Sample text".toList))
      (.error ("connection refused".toList))).2 ("Sample text".toList)
      ("connection refused".toList) (by decide) rfl⟩

/-- One squeeze pass never lengthens the string. -/
theorem replaceDouble_length_le (s : GoStr) :
    (replaceDouble s).length ≤ s.length := by
  induction s using replaceDouble.induct with
  | case1 => simp [replaceDouble]
  | case2 c => simp [replaceDouble]
  | case3 c d rest h ih =>
      simp only [replaceDouble, if_pos h, List.length_cons]
      omega
  | case4 c d rest h ih =>
      simp only [replaceDouble, if_neg h, List.length_cons]
      simp only [List.length_cons] at ih
      omega

/-- A squeeze pass over a string that still contains a double space strictly
shortens it. -/
theorem replaceDouble_length_lt (s : GoStr) :
    containsDouble s = true → (replaceDouble s).length < s.length := by
  induction s using replaceDouble.induct with
  | case1 => intro h; simp [containsDouble] at h
  | case2 c => intro h; simp [containsDouble] at h
  | case3 c d rest h ih =>
      intro hc
      simp only [replaceDouble, if_pos h, List.length_cons]
      have := replaceDouble_length_le rest
      omega
  | case4 c d rest h ih =>
      intro hc
      simp only [replaceDouble, if_neg h, List.length_cons]
      simp only [containsDouble, Bool.or_eq_true] at hc
      rcases hc with hc | hc
      · exact absurd hc h
      · have := ih hc
        simp only [List.length_cons] at this
        omega

/-- Any two sufficient fuels give the squeeze loop the same result. -/
theorem squeezeFuel_congr : ∀ (f1 f2 : Nat) (s : GoStr),
    s.length ≤ f1 → s.length ≤ f2 → squeezeFuel f1 s = squeezeFuel f2 s := by
  intro f1
  induction f1 with
  | zero =>
      intro f2 s h1 h2
      have hs : s = [] := List.length_eq_zero.mp (Nat.le_zero.mp h1)
      subst hs
      cases f2 with
      | zero => rfl
      | succ m => simp [squeezeFuel, containsDouble]
  | succ n ih =>
      intro f2 s h1 h2
      cases f2 with
      | zero =>
          have hs : s = [] := List.length_eq_zero.mp (Nat.le_zero.mp h2)
          subst hs
          simp [squeezeFuel, containsDouble]
      | succ m =>
          by_cases hc : containsDouble s = true
          · simp only [squeezeFuel, hc, if_true]
            have hlt := replaceDouble_length_lt s hc
            exact ih m (replaceDouble s) (by omega) (by omega)
          · simp only [Bool.not_eq_true] at hc
            simp [squeezeFuel, hc]

/-- The defining equation of the source's squeeze loop: keep replacing double
spaces while the string contains one. -/
theorem squeezeLoop_spec (s : GoStr) :
    squeezeLoop s =
      if containsDouble s then squeezeLoop (replaceDouble s) else s := by
  by_cases hc : containsDouble s = true
  · simp only [squeezeLoop, hc, if_true]
    cases hl : s.length with
    | zero =>
        have hs : s = [] := List.length_eq_zero.mp hl
        subst hs
        simp [containsDouble] at hc
    | succ n =>
        simp only [squeezeFuel, hc, if_true]
        have hlt := replaceDouble_length_lt s hc
        rw [hl] at hlt
        exact squeezeFuel_congr n (replaceDouble s).length (replaceDouble s)
          (by omega) (le_refl _)
  · simp only [Bool.not_eq_true] at hc
    simp only [squeezeLoop, hc, Bool.false_eq_true, if_false]
    cases hl : s.length with
    | zero => rfl
    | succ n => simp [squeezeFuel, hc]

/-- A string with no double space is already the loop's fixed point. -/
theorem squeezeLoop_eq_self {s : GoStr} (h : containsDouble s = false) :
    squeezeLoop s = s := by
  rw [squeezeLoop_spec, h]
  simp

/-- The squeeze loop terminates with no double space left. -/
theorem containsDouble_squeezeLoop (s : GoStr) :
    containsDouble (squeezeLoop s) = false := by
  by_cases hc : containsDouble s = true
  · rw [squeezeLoop_spec, if_pos hc]
    exact containsDouble_squeezeLoop (replaceDouble s)
  · rw [squeezeLoop_spec, if_neg hc]
    simpa using hc
termination_by s.length
decreasing_by exact replaceDouble_length_lt s hc

/-- Any invariant preserved by one squeeze pass is preserved by the loop. -/
theorem squeezeLoop_pres (P : GoStr → Prop)
    (hstep : ∀ t, P t → P (replaceDouble t)) (s : GoStr) (h : P s) :
    P (squeezeLoop s) := by
  by_cases hc : containsDouble s = true
  · rw [squeezeLoop_spec, if_pos hc]
    exact squeezeLoop_pres P hstep (replaceDouble s) (hstep s h)
  · rw [squeezeLoop_spec, if_neg hc]
    exact h
termination_by s.length
decreasing_by exact replaceDouble_length_lt s hc

/-- Splitting and rejoining on the separator reproduces the string. -/
theorem joinNL_splitOnNL (s : GoStr) : joinNL (splitOnNL s) = s := by
  induction s with
  | nil => rfl
  | cons c rest ih =>
      by_cases hc : c = '\n'
      · subst hc
        simp only [splitOnNL, if_pos rfl]
        cases hsp : splitOnNL rest with
        | nil => exact absurd hsp (splitOnNL_ne_nil rest)
        | cons l ls =>
            rw [hsp] at ih
            simp only [joinNL, List.nil_append]
            rw [ih]
      · simp only [splitOnNL, if_neg hc]
        cases hsp : splitOnNL rest with
        | nil => exact absurd hsp (splitOnNL_ne_nil rest)
        | cons l ls =>
            rw [hsp] at ih
            cases ls with
            | nil => simp only [joinNL] at ih ⊢; rw [ih]
            | cons l2 ls2 =>
                simp only [joinNL] at ih ⊢
                rw [List.cons_append, ih]

/-- Pieces of the split never contain the separator. -/
theorem splitOnNL_no_nl {s l : GoStr} (hl : l ∈ splitOnNL s) : '\n' ∉ l := by
  induction s generalizing l with
  | nil =>
      simp only [splitOnNL, List.mem_singleton] at hl
      subst hl; simp
  | cons c rest ih =>
      by_cases hc : c = '\n'
      · subst hc
        simp only [splitOnNL, reduceIte, List.mem_cons] at hl
        rcases hl with rfl | hl
        · simp
        · exact ih hl
      · simp only [splitOnNL, if_neg hc] at hl
        obtain ⟨l0, ls, hsp⟩ :=
          List.exists_cons_of_ne_nil (splitOnNL_ne_nil rest)
        rw [hsp] at hl
        simp only [List.mem_cons] at hl
        rcases hl with rfl | hl
        · intro hmem
          rcases List.mem_cons.mp hmem with h1 | h1
          · exact hc h1.symm
          · exact ih (by rw [hsp]; exact List.mem_cons_self l0 ls) h1
        · exact ih (by rw [hsp]; exact List.mem_cons_of_mem _ hl)

/-- Characters of a piece of the split are characters of the string. -/
theorem mem_of_mem_splitOnNL {s l : GoStr} {c : Char}
    (hl : l ∈ splitOnNL s) (hc : c ∈ l) : c ∈ s := by
  induction s generalizing l with
  | nil =>
      simp only [splitOnNL, List.mem_singleton] at hl
      subst hl; simp at hc
  | cons a rest ih =>
      by_cases ha : a = '\n'
      · subst ha
        simp only [splitOnNL, reduceIte, List.mem_cons] at hl
        rcases hl with rfl | hl
        · simp at hc
        · exact List.mem_cons_of_mem _ (ih hl hc)
      · simp only [splitOnNL, if_neg ha] at hl
        obtain ⟨l0, ls, hsp⟩ :=
          List.exists_cons_of_ne_nil (splitOnNL_ne_nil rest)
        rw [hsp] at hl
        simp only [List.mem_cons] at hl
        rcases hl with rfl | hl
        · rcases List.mem_cons.mp hc with rfl | h1
          · exact List.mem_cons_self _ _
          · exact List.mem_cons_of_mem _
              (ih (by rw [hsp]; exact List.mem_cons_self l0 ls) h1)
        · exact List.mem_cons_of_mem _
            (ih (by rw [hsp]; exact List.mem_cons_of_mem _ hl) hc)

/-- A separator-free string splits into the single piece it is. -/
theorem splitOnNL_of_no_nl {l : GoStr} (h : '\n' ∉ l) : splitOnNL l = [l] := by
  induction l with
  | nil => rfl
  | cons c rest ih =>
      have hc : c ≠ '\n' := fun hh => h (by simp [hh])
      have hr : '\n' ∉ rest := fun hh => h (List.mem_cons_of_mem _ hh)
      simp only [splitOnNL, if_neg hc, ih hr]

/-- Splitting after a separator-free head piece peels that piece off. -/
theorem splitOnNL_append {l : GoStr} (t : GoStr) (h : '\n' ∉ l) :
    splitOnNL (l ++ '\n' :: t) = l :: splitOnNL t := by
  induction l with
  | nil => simp [splitOnNL]
  | cons c rest ih =>
      have hc : c ≠ '\n' := fun hh => h (by simp [hh])
      have hr : '\n' ∉ rest := fun hh => h (List.mem_cons_of_mem _ hh)
      rw [List.cons_append]
      simp only [splitOnNL, if_neg hc]
      rw [ih hr]

/-- Joining separator-free pieces and splitting again gives the pieces back. -/
theorem splitOnNL_joinNL {L : List GoStr} (hne : L ≠ [])
    (h : ∀ l ∈ L, '\n' ∉ l) : splitOnNL (joinNL L) = L := by
  induction L with
  | nil => exact absurd rfl hne
  | cons l ls ih =>
      cases ls with
      | nil =>
          simp only [joinNL]
          exact splitOnNL_of_no_nl (h l (by simp))
      | cons l2 ls2 =>
          simp only [joinNL]
          rw [splitOnNL_append _ (h l (by simp))]
          rw [ih (by simp) fun x hx => h x (List.mem_cons_of_mem _ hx)]

/-- A join of non-empty pieces is non-empty. -/
theorem joinNL_ne_nil {L : List GoStr} (hne : L ≠ [])
    (h : ∀ l ∈ L, l ≠ []) : joinNL L ≠ [] := by
  cases L with
  | nil => exact absurd rfl hne
  | cons l ls =>
      cases ls with
      | nil => simpa [joinNL] using h l (by simp)
      | cons l2 ls2 => simp [joinNL]

/-- Characters of a join are separators or characters of some piece. -/
theorem mem_joinNL {L : List GoStr} {c : Char} (h : c ∈ joinNL L) :
    c = '\n' ∨ ∃ l ∈ L, c ∈ l := by
  induction L with
  | nil => simp [joinNL] at h
  | cons l ls ih =>
      cases ls with
      | nil =>
          right
          exact ⟨l, by simp, by simpa [joinNL] using h⟩
      | cons l2 ls2 =>
          simp only [joinNL, List.mem_append, List.mem_cons] at h
          rcases h with h | h | h
          · right; exact ⟨l, by simp, h⟩
          · left; exact h
          · rcases ih h with h1 | ⟨x, hx, hcx⟩
            · left; exact h1
            · right; exact ⟨x, List.mem_cons_of_mem _ hx, hcx⟩

/-- The head surviving a `dropWhile` fails the predicate. -/
theorem head?_dropWhile (p : Char → Bool) (l : GoStr) :
    ∀ c ∈ (l.dropWhile p).head?, p c = false := by
  induction l with
  | nil => simp [List.dropWhile]
  | cons a t ih =>
      by_cases ha : p a = true
      · simpa [List.dropWhile_cons, ha] using ih
      · simp only [List.dropWhile_cons, ha, Bool.false_eq_true, if_false]
        intro c hc
        simp only [List.head?_cons, Option.mem_def, Option.some.injEq] at hc
        subst hc
        simpa using ha

/-- `dropWhile` does nothing when the head already fails the predicate. -/
theorem dropWhile_eq_self_of_head (p : Char → Bool) {l : GoStr}
    (h : ∀ c ∈ l.head?, p c = false) : l.dropWhile p = l := by
  cases l with
  | nil => rfl
  | cons a t =>
      have ha : p a = false := h a (by simp)
      simp [List.dropWhile_cons, ha]

/-- A string with no whitespace at either edge is already trimmed. -/
theorem trimSpace_eq_self_of_noEdge {l : GoStr} (h : noEdgeSpace l) :
    trimSpace l = l := by
  obtain ⟨h1, h2⟩ := h
  unfold trimSpace
  rw [dropWhile_eq_self_of_head goIsSpace h1,
    dropWhile_eq_self_of_head goIsSpace h2, List.reverse_reverse]

/-- The head of a concatenation with a non-empty left part. -/
theorem head?_append_ne_nil {l : GoStr} (m : GoStr) (h : l ≠ []) :
    (l ++ m).head? = l.head? := by
  cases l with
  | nil => exact absurd rfl h
  | cons a t => rfl

/-- A non-empty trim result has no whitespace at either edge. -/
theorem noEdgeSpace_trimSpace {x : GoStr} (h : trimSpace x ≠ []) :
    noEdgeSpace (trimSpace x) := by
  have hy : trimSpace x =
      ((x.dropWhile goIsSpace).reverse.dropWhile goIsSpace).reverse := rfl
  constructor
  · intro c hc
    rw [hy] at hc
    have hyne : (x.dropWhile goIsSpace).reverse.dropWhile goIsSpace ≠ [] := by
      intro hnil
      rw [hy, hnil] at h
      simp at h
    have hyrev :
        ((x.dropWhile goIsSpace).reverse.dropWhile goIsSpace).reverse ≠ [] := by
      simpa using hyne
    have hsplit :
        ((x.dropWhile goIsSpace).reverse.takeWhile goIsSpace) ++
          ((x.dropWhile goIsSpace).reverse.dropWhile goIsSpace) =
          (x.dropWhile goIsSpace).reverse :=
      List.takeWhile_append_dropWhile _ _
    have hrev :
        ((x.dropWhile goIsSpace).reverse.dropWhile goIsSpace).reverse.head? =
          (x.dropWhile goIsSpace).head? := by
      rw [← head?_append_ne_nil
          ((x.dropWhile goIsSpace).reverse.takeWhile goIsSpace).reverse hyrev,
        ← List.reverse_append, hsplit, List.reverse_reverse]
    rw [hrev] at hc
    exact head?_dropWhile goIsSpace x c hc
  · intro c hc
    rw [hy, List.reverse_reverse] at hc
    exact head?_dropWhile goIsSpace (x.dropWhile goIsSpace).reverse c hc

/-- Trimming only removes characters. -/
theorem mem_trimSpace {x : GoStr} {c : Char} (h : c ∈ trimSpace x) : c ∈ x := by
  unfold trimSpace at h
  rw [List.mem_reverse] at h
  have h1 := (List.dropWhile_sublist
    (l := (x.dropWhile goIsSpace).reverse) (p := goIsSpace)).subset h
  rw [List.mem_reverse] at h1
  exact (List.dropWhile_sublist (l := x) (p := goIsSpace)).subset h1

/-- Replacing carriage returns leaves none behind. -/
theorem noCR_replaceCR (s : GoStr) : noCR (replaceCR s) := by
  intro c hc
  simp only [replaceCR, List.mem_map] at hc
  obtain ⟨a, _, rfl⟩ := hc
  by_cases h : a = '\r'
  · simp [h]
  · simp [h]

/-- `ReplaceAll(s, "\r", "\n")` on a CR-free string is the identity. -/
theorem replaceCR_eq_self {s : GoStr} (h : noCR s) : replaceCR s = s := by
  unfold replaceCR
  induction s with
  | nil => rfl
  | cons a t ih =>
      simp only [List.map_cons]
      rw [if_neg (h a (by simp)), ih fun c hc => h c (List.mem_cons_of_mem _ hc)]

/-- `ReplaceAll(s, "\r\n", "\n")` on a CR-free string is the identity. -/
theorem replaceCRLF_eq_self {s : GoStr} (h : noCR s) : replaceCRLF s = s := by
  induction s using replaceCRLF.induct with
  | case1 => rfl
  | case2 c => rfl
  | case3 c d rest hcd ih =>
      exfalso
      have : c = '\r' := by
        rcases Bool.and_eq_true_iff.mp hcd with ⟨h1, _⟩
        exact of_decide_eq_true h1
      exact h c (by simp) this
  | case4 c d rest hcd ih =>
      simp only [replaceCRLF, if_neg hcd]
      rw [ih fun x hx => h x (List.mem_cons_of_mem _ hx)]

/-- The last element of a cons with non-empty tail. -/
theorem getLast?_cons_ne_nil {a : Char} {t : GoStr} (h : t ≠ []) :
    (a :: t).getLast? = t.getLast? := by
  rw [← List.head?_reverse, ← List.head?_reverse, List.reverse_cons]
  exact head?_append_ne_nil [a] (by simpa using h)

/-- A squeeze pass keeps a non-empty string non-empty. -/
theorem replaceDouble_ne_nil {l : GoStr} (h : l ≠ []) : replaceDouble l ≠ [] := by
  cases l with
  | nil => exact absurd rfl h
  | cons a t =>
      cases t with
      | nil => simp [replaceDouble]
      | cons b u =>
          simp only [replaceDouble]
          split <;> simp

/-- A squeeze pass only removes characters. -/
theorem mem_replaceDouble {l : GoStr} {c : Char} (h : c ∈ replaceDouble l) :
    c ∈ l := by
  induction l using replaceDouble.induct with
  | case1 => simpa [replaceDouble] using h
  | case2 a => simpa [replaceDouble] using h
  | case3 a b rest hcd ih =>
      have ha : a = ' ' := of_decide_eq_true (Bool.and_eq_true_iff.mp hcd).1
      simp only [replaceDouble, if_pos hcd, List.mem_cons] at h
      rcases h with rfl | h
      · rw [ha]
        exact List.mem_cons_self _ _
      · exact List.mem_cons_of_mem _ (List.mem_cons_of_mem _ (ih h))
  | case4 a b rest hcd ih =>
      simp only [replaceDouble, if_neg hcd, List.mem_cons] at h
      rcases h with rfl | h
      · simp
      · simp only [List.mem_cons] at ih ⊢
        rcases ih h with h1 | h1
        · exact Or.inr (Or.inl h1)
        · exact Or.inr (Or.inr h1)

/-- A squeeze pass keeps a non-whitespace first character. -/
theorem head?_replaceDouble {l : GoStr}
    (h : ∀ c ∈ l.head?, goIsSpace c = false) :
    (replaceDouble l).head? = l.head? := by
  cases l with
  | nil => rfl
  | cons a t =>
      cases t with
      | nil => rfl
      | cons b u =>
          have ha : goIsSpace a = false := h a (by simp)
          have ha2 : a ≠ ' ' := by
            intro hh
            subst hh
            simp [goIsSpace] at ha
          have hcond : ¬((decide (a = ' ')) && (decide (b = ' '))) = true := by
            simp [ha2]
          simp only [replaceDouble, if_neg hcond, List.head?_cons]

/-- A squeeze pass keeps a non-whitespace last character. -/
theorem getLast?_replaceDouble {l : GoStr}
    (h : ∀ c ∈ l.getLast?, goIsSpace c = false) :
    (replaceDouble l).getLast? = l.getLast? := by
  induction l using replaceDouble.induct with
  | case1 => rfl
  | case2 c => rfl
  | case3 c d rest hcd ih =>
      cases rest with
      | nil =>
          exfalso
          have hd : d = ' ' := of_decide_eq_true (Bool.and_eq_true_iff.mp hcd).2
          have hin : ([c, d] : GoStr).getLast? = some d := by
            rw [getLast?_cons_ne_nil (by simp)]
            rfl
          have := h d (by rw [hin]; rfl)
          rw [hd] at this
          simp [goIsSpace] at this
      | cons e u =>
          have htail : (e :: u) ≠ ([] : GoStr) := by simp
          have hlast : ((c :: d :: e :: u) : GoStr).getLast? =
              (e :: u).getLast? := by
            rw [getLast?_cons_ne_nil (by simp), getLast?_cons_ne_nil htail]
          rw [hlast] at h ⊢
          rw [show replaceDouble (c :: d :: e :: u) =
              ' ' :: replaceDouble (e :: u) from by
            simp only [replaceDouble, if_pos hcd]]
          rw [getLast?_cons_ne_nil (replaceDouble_ne_nil htail)]
          exact ih h
  | case4 c d rest hcd ih =>
      have hlast : ((c :: d :: rest) : GoStr).getLast? =
          (d :: rest).getLast? := getLast?_cons_ne_nil (by simp)
      rw [hlast] at h ⊢
      simp only [replaceDouble, if_neg hcd]
      rw [getLast?_cons_ne_nil (replaceDouble_ne_nil (by simp))]
      exact ih h

/-- A squeeze pass preserves clean edges. -/
theorem noEdgeSpace_replaceDouble {l : GoStr} (h : noEdgeSpace l) :
    noEdgeSpace (replaceDouble l) := by
  obtain ⟨h1, h2⟩ := h
  have h2g : ∀ c ∈ l.getLast?, goIsSpace c = false := by
    intro c hc
    exact h2 c (by rw [List.head?_reverse]; exact hc)
  constructor
  · rw [head?_replaceDouble h1]
    exact h1
  · intro c hc
    rw [List.head?_reverse, getLast?_replaceDouble h2g] at hc
    exact h2g c hc

/-- Splitting a string with a non-separator head peels the head onto the
first piece. -/
theorem splitOnNL_cons_ne_nl {c : Char} (s : GoStr) (hc : c ≠ '\n')
    {l0 : GoStr} {ls : List GoStr} (hsp : splitOnNL s = l0 :: ls) :
    splitOnNL (c :: s) = (c :: l0) :: ls := by
  simp only [splitOnNL, if_neg hc, hsp]

/-- A squeeze pass commutes with splitting on the separator: it acts on each
line independently (a double space never spans a line break). -/
theorem splitOnNL_replaceDouble (s : GoStr) :
    splitOnNL (replaceDouble s) = (splitOnNL s).map replaceDouble := by
  induction s using replaceDouble.induct with
  | case1 => rfl
  | case2 c =>
      by_cases hc : c = '\n'
      · subst hc; rfl
      · simp [splitOnNL, replaceDouble, hc]
  | case3 c d rest hcd ih =>
      have hc : c = ' ' := of_decide_eq_true (Bool.and_eq_true_iff.mp hcd).1
      have hd : d = ' ' := of_decide_eq_true (Bool.and_eq_true_iff.mp hcd).2
      have hcn : c ≠ '\n' := by rw [hc]; decide
      have hdn : d ≠ '\n' := by rw [hd]; decide
      obtain ⟨l0, ls, hsp⟩ :=
        List.exists_cons_of_ne_nil (splitOnNL_ne_nil rest)
      have ihs : splitOnNL (replaceDouble rest) =
          replaceDouble l0 :: List.map replaceDouble ls := by
        rw [ih, hsp, List.map_cons]
      rw [show replaceDouble (c :: d :: rest) = ' ' :: replaceDouble rest from by
        simp only [replaceDouble, if_pos hcd]]
      rw [splitOnNL_cons_ne_nl _ (by decide) ihs]
      rw [splitOnNL_cons_ne_nl _ hcn (splitOnNL_cons_ne_nl _ hdn hsp)]
      rw [List.map_cons]
      congr 1
      rw [show replaceDouble (c :: d :: l0) = ' ' :: replaceDouble l0 from by
        simp only [replaceDouble, if_pos hcd]]
  | case4 c d rest hcd ih =>
      rw [show replaceDouble (c :: d :: rest) = c :: replaceDouble (d :: rest)
          from by simp only [replaceDouble, if_neg hcd]]
      by_cases hc : c = '\n'
      · subst hc
        rw [show splitOnNL ('\n' :: replaceDouble (d :: rest)) =
            [] :: splitOnNL (replaceDouble (d :: rest)) from by
          simp [splitOnNL]]
        rw [show splitOnNL ('\n' :: d :: rest) =
            [] :: splitOnNL (d :: rest) from by simp [splitOnNL]]
        rw [List.map_cons, ih]
        rfl
      · obtain ⟨l0, ls, hsp⟩ :=
          List.exists_cons_of_ne_nil (splitOnNL_ne_nil (d :: rest))
        have ihs : splitOnNL (replaceDouble (d :: rest)) =
            replaceDouble l0 :: List.map replaceDouble ls := by
          rw [ih, hsp, List.map_cons]
        rw [splitOnNL_cons_ne_nl _ hc ihs]
        rw [splitOnNL_cons_ne_nl _ hc hsp]
        rw [List.map_cons]
        congr 1
        by_cases hdn : d = '\n'
        · subst hdn
          rw [show splitOnNL ('\n' :: rest) = [] :: splitOnNL rest from by
            simp [splitOnNL]] at hsp
          injection hsp with h1 h2
          rw [← h1]
          rfl
        · obtain ⟨r0, rs, hspr⟩ :=
            List.exists_cons_of_ne_nil (splitOnNL_ne_nil rest)
          rw [splitOnNL_cons_ne_nl _ hdn hspr] at hsp
          injection hsp with h1 h2
          rw [← h1]
          exact (show replaceDouble (c :: d :: r0) =
              c :: replaceDouble (d :: r0) from by
            simp only [replaceDouble, if_neg hcd]).symm

/-- Joining non-empty clean-edged lines gives a clean-edged string. -/
theorem noEdgeSpace_joinNL {L : List GoStr} (hne : L ≠ [])
    (h : ∀ l ∈ L, l ≠ [] ∧ noEdgeSpace l) : noEdgeSpace (joinNL L) := by
  induction L with
  | nil => exact absurd rfl hne
  | cons l ls ih =>
      cases ls with
      | nil => simpa [joinNL] using (h l (by simp)).2
      | cons l2 ls2 =>
          obtain ⟨hlne, hlh, hlr⟩ := h l (by simp)
          have hJ : noEdgeSpace (joinNL (l2 :: ls2)) :=
            ih (by simp) fun x hx => h x (List.mem_cons_of_mem _ hx)
          have hJne : joinNL (l2 :: ls2) ≠ [] :=
            joinNL_ne_nil (by simp) fun x hx =>
              (h x (List.mem_cons_of_mem _ hx)).1
          have hjoin : joinNL (l :: l2 :: ls2) =
              l ++ '\n' :: joinNL (l2 :: ls2) := rfl
          constructor
          · intro c hc
            rw [hjoin, head?_append_ne_nil _ hlne] at hc
            exact hlh c hc
          · intro c hc
            rw [hjoin, List.reverse_append, List.reverse_cons,
              List.append_assoc,
              head?_append_ne_nil _ (by simpa using hJne)] at hc
            exact hJ.2 c hc

/-- One squeeze pass preserves the no-CR, clean-lines and clean-edges facts. -/
theorem squeezeStep_pres (t : GoStr)
    (h : noCR t ∧ (∀ l ∈ splitOnNL t, l ≠ [] ∧ noEdgeSpace l) ∧
      noEdgeSpace t) :
    noCR (replaceDouble t) ∧
      (∀ l ∈ splitOnNL (replaceDouble t), l ≠ [] ∧ noEdgeSpace l) ∧
      noEdgeSpace (replaceDouble t) := by
  obtain ⟨h1, h2, h3⟩ := h
  refine ⟨fun c hc => h1 c (mem_replaceDouble hc), ?_,
    noEdgeSpace_replaceDouble h3⟩
  intro l hl
  rw [splitOnNL_replaceDouble] at hl
  obtain ⟨x, hx, rfl⟩ := List.mem_map.mp hl
  obtain ⟨hxne, hxedge⟩ := h2 x hx
  exact ⟨replaceDouble_ne_nil hxne, noEdgeSpace_replaceDouble hxedge⟩

/-- Mapping a function that fixes every member is the identity. -/
theorem map_eq_self_of_mem {f : GoStr → GoStr} {l : List GoStr}
    (h : ∀ a ∈ l, f a = a) : l.map f = l := by
  induction l with
  | nil => rfl
  | cons a t ih =>
      rw [List.map_cons, h a (by simp),
        ih fun x hx => h x (List.mem_cons_of_mem _ hx)]

/-- Filtering with a predicate every member passes is the identity. -/
theorem filter_eq_self_of_mem {p : GoStr → Bool} {l : List GoStr}
    (h : ∀ a ∈ l, p a = true) : l.filter p = l := by
  induction l with
  | nil => rfl
  | cons a t ih =>
      rw [List.filter_cons_of_pos (h a (by simp)),
        ih fun x hx => h x (List.mem_cons_of_mem _ hx)]

/-- Shape of every `cleanExtractedText` output: either empty, or CR-free with
non-empty whitespace-trimmed lines, no double space, and trimmed ends. -/
theorem clean_output_shape (s : GoStr) :
    cleanExtractedText s = [] ∨
      (noCR (cleanExtractedText s) ∧
        (∀ l ∈ splitOnNL (cleanExtractedText s), l ≠ [] ∧ noEdgeSpace l) ∧
        containsDouble (cleanExtractedText s) = false ∧
        trimSpace (cleanExtractedText s) = cleanExtractedText s) := by
  set u := replaceCR (replaceCRLF s) with hu
  set L := ((splitOnNL u).map trimSpace).filter (fun l => !l.isEmpty) with hL
  have hclean : cleanExtractedText s = trimSpace (squeezeLoop (joinNL L)) := rfl
  by_cases hLnil : L = []
  · left
    rw [hclean, hLnil]
    rfl
  · right
    have hLne : ∀ l ∈ L, l ≠ [] := by
      intro l hl
      have := (List.mem_filter.mp hl).2
      simpa [List.isEmpty_iff] using this
    have hLedge : ∀ l ∈ L, noEdgeSpace l := by
      intro l hl
      have hf := (List.mem_filter.mp hl).1
      obtain ⟨x, hx, rfl⟩ := List.mem_map.mp hf
      exact noEdgeSpace_trimSpace (hLne _ hl)
    have hLnl : ∀ l ∈ L, '\n' ∉ l := by
      intro l hl hmem
      have hf := (List.mem_filter.mp hl).1
      obtain ⟨x, hx, rfl⟩ := List.mem_map.mp hf
      exact splitOnNL_no_nl hx (mem_trimSpace hmem)
    have hLnoCR : ∀ l ∈ L, ∀ c ∈ l, c ≠ '\r' := by
      intro l hl c hc
      have hf := (List.mem_filter.mp hl).1
      obtain ⟨x, hx, rfl⟩ := List.mem_map.mp hf
      have hcu : c ∈ u := mem_of_mem_splitOnNL hx (mem_trimSpace hc)
      rw [hu] at hcu
      exact noCR_replaceCR (replaceCRLF s) c hcu
    have hvP : noCR (joinNL L) ∧
        (∀ l ∈ splitOnNL (joinNL L), l ≠ [] ∧ noEdgeSpace l) ∧
        noEdgeSpace (joinNL L) := by
      refine ⟨?_, ?_, noEdgeSpace_joinNL hLnil
        fun l hl => ⟨hLne l hl, hLedge l hl⟩⟩
      · intro c hc
        rcases mem_joinNL hc with rfl | ⟨l, hl, hcl⟩
        · decide
        · exact hLnoCR l hl c hcl
      · intro l hl
        rw [splitOnNL_joinNL hLnil hLnl] at hl
        exact ⟨hLne l hl, hLedge l hl⟩
    have hwP := squeezeLoop_pres
      (fun t => noCR t ∧ (∀ l ∈ splitOnNL t, l ≠ [] ∧ noEdgeSpace l) ∧
        noEdgeSpace t)
      squeezeStep_pres (joinNL L) hvP
    obtain ⟨hw1, hw2, hw3⟩ := hwP
    have hwd : containsDouble (squeezeLoop (joinNL L)) = false :=
      containsDouble_squeezeLoop (joinNL L)
    have hwt : trimSpace (squeezeLoop (joinNL L)) = squeezeLoop (joinNL L) :=
      trimSpace_eq_self_of_noEdge hw3
    rw [hclean, hwt]
    exact ⟨hw1, hw2, hwd, hwt⟩

/-- `cleanExtractedText` fixes every string of its own output shape. -/
theorem clean_eq_self {t : GoStr}
    (h : noCR t ∧ (∀ l ∈ splitOnNL t, l ≠ [] ∧ noEdgeSpace l) ∧
      containsDouble t = false ∧ trimSpace t = t) :
    cleanExtractedText t = t := by
  obtain ⟨h1, h2, h3, h4⟩ := h
  have e1 : replaceCRLF t = t := replaceCRLF_eq_self h1
  have e2 : replaceCR t = t := replaceCR_eq_self h1
  have e3 : (splitOnNL t).map trimSpace = splitOnNL t :=
    map_eq_self_of_mem fun l hl => trimSpace_eq_self_of_noEdge (h2 l hl).2
  have e4 : (splitOnNL t).filter (fun l => !l.isEmpty) = splitOnNL t :=
    filter_eq_self_of_mem fun l hl => by
      simpa [List.isEmpty_iff] using (h2 l hl).1
  show trimSpace (squeezeLoop (joinNL
    (((splitOnNL (replaceCR (replaceCRLF t))).map trimSpace).filter
      fun l => !l.isEmpty))) = t
  rw [e1, e2, e3, e4, joinNL_splitOnNL, squeezeLoop_eq_self h3, h4]

/-- C9 counterexample: an interior tab between two letters is whitespace but
survives `cleanExtractedText` unchanged — it is not collapsed to a single
space, so interior-whitespace collapsing only applies to space characters. -/
theorem c9_counterexample :
    cleanExtractedText ['a', '\t', 'b'] = ['a', '\t', 'b'] ∧
    goIsSpace '\t' = true ∧ '\t' ≠ ' ' := by
  decide

/-- C9 (amended): every `cleanExtractedText` output is either empty or
contains no carriage return (CRLF and lone CR collapsed to LF), has only
non-empty lines with no leading or trailing whitespace (blank lines dropped,
per-line trimming), contains no two consecutive spaces (runs of interior
space characters collapsed — tabs and other non-space whitespace inside a
line are preserved), and is trimmed at both ends. -/
theorem c9_normalization_props (s : GoStr) :
    cleanExtractedText s = [] ∨
      (noCR (cleanExtractedText s) ∧
        (∀ l ∈ splitOnNL (cleanExtractedText s), l ≠ [] ∧ noEdgeSpace l) ∧
        containsDouble (cleanExtractedText s) = false ∧
        trimSpace (cleanExtractedText s) = cleanExtractedText s) :=
  clean_output_shape s

/-- C10: `cleanExtractedText` is idempotent — its output is one of its own
fixed points. -/
theorem c10_clean_idempotent (s : GoStr) :
    cleanExtractedText (cleanExtractedText s) = cleanExtractedText s := by
  rcases clean_output_shape s with h | h
  · rw [h]
    rfl
  · exact clean_eq_self h
